import Mathlib

/-!
# Verification of the rest-hapi data provider (`src/index.js`)

A shallow embedding of the react-admin data provider for rest-hapi.
JavaScript values are modelled by `JValue`; JS objects are association
lists with the engine's `[[Set]]` / `delete` / `Object.assign` semantics
(unique keys, insertion order preserved, assignment updates in place).
The provider's entry point is `dataProvider`, which also returns the
list of requests issued through the injected HTTP transport, so that
claims about what reaches the network can be stated.  Promises are
modelled deterministically: a settled promise is `Except` (rejected /
resolved), and a synchronous throw is a distinct `Outcome`.
-/

set_option autoImplicit false

namespace RestHapi

/-- JavaScript values, as far as the adapter manipulates them.
Numbers are modelled by `Int` (no claim involves non-integer numbers). -/
inductive JValue where
  | undef
  | null
  | bool (b : Bool)
  | num (n : Int)
  | str (s : String)
  | arr (elems : List JValue)
  | obj (fields : List (String × JValue))
  deriving Repr

/-- A JS object: ordered fields with unique keys. -/
abbrev JObject := List (String × JValue)

/-- Property read `o[k]`: `undefined` when the key is absent. -/
def objGet : JObject → String → JValue
  | [], _ => .undef
  | (k', v) :: rest, k => if k' = k then v else objGet rest k

/-- Property write `o[k] = v`: updates the existing entry in place,
otherwise appends the key at the end (JS insertion order). -/
def objSet : JObject → String → JValue → JObject
  | [], k, v => [(k, v)]
  | (k', v') :: rest, k, v =>
      if k' = k then (k', v) :: rest else (k', v') :: objSet rest k v

/-- `delete o[k]`. -/
def objDelete : JObject → String → JObject
  | [], _ => []
  | (k', v) :: rest, k =>
      if k' = k then objDelete rest k else (k', v) :: objDelete rest k

/-- The keys of an object, in order. -/
def objKeys (o : JObject) : List String := o.map Prod.fst

/-- `k in o`. -/
def objHas (o : JObject) (k : String) : Prop := k ∈ objKeys o

instance (o : JObject) (k : String) : Decidable (objHas o k) := by
  unfold objHas; infer_instance

/-- `Object.assign(target, src)`: each own key of `src`, in order,
written into `target` with `[[Set]]` semantics. -/
def objAssign (target src : JObject) : JObject :=
  src.foldl (fun acc p => objSet acc p.1 p.2) target

/-- JS truthiness of a value (`if (v)`).  `NaN` does not arise here. -/
def truthy : JValue → Bool
  | .undef => false
  | .null => false
  | .bool b => b
  | .num n => decide (n ≠ 0)
  | .str s => decide (s ≠ "")
  | .arr _ => true
  | .obj _ => true

/-- JS loose `v != null`: false exactly for `null` and `undefined`. -/
def notNullish : JValue → Bool
  | .undef => false
  | .null => false
  | _ => true

/-- JS string coercion as used in template literals (`${v}`).  The
adapter only interpolates ids and names, which are strings or numbers;
the array case (comma-joined elements) is left unmodelled (no claim
exercises it). -/
def jsToString : JValue → String
  | .str s => s
  | .num n => toString n
  | .bool b => if b then "true" else "false"
  | .null => "null"
  | .undef => "undefined"
  | .arr _ => ""
  | .obj _ => "[object Object]"

mutual

/-- One entry's contribution to `fetchUtils.flattenObject` (react-admin):
a plain-object value is flattened recursively and its keys prefixed by
`k ++ "."`; any other value (arrays and `null` are not plain objects)
stays a leaf under key `k`. -/
def flatEntry (k : String) : JValue → JObject
  | .obj fields =>
      (objAssign [] (flattenParts fields)).map (fun p => (k ++ "." ++ p.1, p.2))
  | v => [(k, v)]

/-- The concatenation of all entries' flattened contributions, before the
`Object.assign({}, ...)` merge. -/
def flattenParts : JObject → JObject
  | [] => []
  | (k, v) :: rest => flatEntry k v ++ flattenParts rest

end

/-- `fetchUtils.flattenObject` on an object:
`Object.assign({}, ...Object.keys(value).map(key => flattenObject(value[key], path.concat([key]))))`. -/
def flattenObject (fields : JObject) : JObject :=
  objAssign [] (flattenParts fields)

/-- `stringify` / `parse` of the `query-string` module and JSON
serialization are kept abstract: a request records the mapping handed to
the encoder (`query`, possibly with repeated keys for GET_MANY) and the
object handed to `JSON.stringify` (`body`), next to the path part of the
URL.  All claims about requests concern these components. -/
structure Request where
  path : String
  query : JObject
  method : Option String
  body : Option JObject
  deriving Repr

/-- The request parameters handed to the provider.  A JS params object
carries whichever of these fields the operation needs; absent fields are
never read on the paths that matter, so one bag is adequate. -/
structure Params where
  page : Int
  perPage : Int
  sortField : String
  sortOrder : String
  filter : JObject
  id : JValue
  ids : List JValue
  target : String
  data : JObject
  deriving Repr

def GET_LIST : String := "GET_LIST"
def GET_ONE : String := "GET_ONE"
def GET_MANY : String := "GET_MANY"
def GET_MANY_REFERENCE : String := "GET_MANY_REFERENCE"
def CREATE : String := "CREATE"
def UPDATE : String := "UPDATE"
def UPDATE_MANY : String := "UPDATE_MANY"
def DELETE : String := "DELETE"
def DELETE_MANY : String := "DELETE_MANY"

/-- `getQueryForParams` (src/index.js:28-52).  The source mutates
`params.filter` in place (lines 32 and 38-41); the updated filter is
returned next to the query so that the mutation stays observable. -/
def getQueryForParams (params : Params) : JObject × JObject :=
  let field := params.sortField
  let order := params.sortOrder
  let filter1 :=
    if field ≠ "" then
      objSet params.filter "$sort"
        (.str ((if order = "DESC" then "-" else "") ++ field))
    else params.filter
  let filter2 :=
    if notNullish (objGet filter1 "q") then
      objDelete (objSet filter1 "$term" (objGet filter1 "q")) "q"
    else filter1
  let query :=
    objAssign
      (objAssign (flattenObject filter2)
        [("$limit", .num params.perPage), ("$page", .num params.page)])
      (if field ≠ "" then
        [("$sort", .str ((if order = "DESC" then "-" else "")
            ++ (if field = "id" then "_id" else field)))]
       else [])
  (query, filter2)

/-- `cleanData` (src/index.js:54-62): copy `params.data`, delete the
five housekeeping keys, serialize.  The serialized body is modelled by
the cleaned object itself. -/
def cleanData (data : JObject) : JObject :=
  objDelete (objDelete (objDelete (objDelete (objDelete data
    "id") "createdAt") "updatedAt") "deletedAt") "isDeleted"

/-- `convertDataRequestToHTTP` (src/index.js:70-110).  Returns the
request together with the (possibly mutated) params, or the message of
the synchronously thrown error for an unrecognized type. -/
def convertDataRequestToHTTP (apiUrl type resource : String) (params : Params) :
    Except String (Request × Params) :=
  if type = GET_LIST then
    .ok ({ path := apiUrl ++ "/" ++ resource,
           query := (getQueryForParams params).1,
           method := none, body := none },
         { params with filter := (getQueryForParams params).2 })
  else if type = GET_ONE then
    .ok ({ path := apiUrl ++ "/" ++ resource ++ "/" ++ jsToString params.id,
           query := [], method := none, body := none }, params)
  else if type = GET_MANY_REFERENCE then
    .ok ({ path := apiUrl ++ "/" ++ resource,
           query := objSet (getQueryForParams params).1 params.target params.id,
           method := none, body := none },
         { params with filter := (getQueryForParams params).2 })
  else if type = UPDATE then
    .ok ({ path := apiUrl ++ "/" ++ resource ++ "/" ++ jsToString params.id,
           query := [], method := some "PUT",
           body := some (cleanData params.data) }, params)
  else if type = CREATE then
    .ok ({ path := apiUrl ++ "/" ++ resource, query := [],
           method := some "POST",
           body := some (cleanData params.data) }, params)
  else if type = DELETE then
    .ok ({ path := apiUrl ++ "/" ++ resource ++ "/" ++ jsToString params.id,
           query := [], method := some "DELETE", body := none }, params)
  else if type = GET_MANY then
    .ok ({ path := apiUrl ++ "/" ++ resource,
           query := params.ids.map (fun i => ("_id", i)),
           method := none, body := none }, params)
  else
    .error ("Unsupported fetch action type " ++ type)

/-- The shape returned to the caller: `{ data }` or `{ data, total }`. -/
structure ConvResult where
  data : JValue
  total : Option JValue
  deriving Repr

/-- One list record's translation,
`d => (d.id = d._id) && delete d._id && d` (src/index.js:126).
The assignment evaluates to the assigned value; when that value is
falsy, `&&` short-circuits and the array element is the falsy `_id`
value itself (with `d` mutated but dropped).  Docs that are not plain
objects are not modelled (records are objects per the wire contract);
they yield a conversion error. -/
def mapListDoc : JValue → Option JValue
  | .obj fields =>
      let idVal := objGet fields "_id"
      let fields1 := objSet fields "id" idVal
      if truthy idVal then some (.obj (objDelete fields1 "_id"))
      else some idVal
  | _ => none

/-- `json.docs.map(...)` over the doc translation: a throw at any
element (modelled by `none`) propagates out of the whole `map`. -/
def mapDocs : List JValue → Option (List JValue)
  | [] => some []
  | d :: rest =>
      match mapListDoc d, mapDocs rest with
      | some d', some rest' => some (d' :: rest')
      | _, _ => none

/-- `convertHTTPResponse` (src/index.js:119-138), on the parsed body
`json` of the transport's response.  `none` models a thrown `TypeError`
(which rejects the surrounding promise): reading `docs.map` or
`items.total` off a body of the wrong shape, or writing `json.id` when
`json` is not an object. -/
def convertHTTPResponse (json : JValue) (type : String) (params : Params) :
    Option ConvResult :=
  if type = GET_LIST ∨ type = GET_MANY ∨ type = GET_MANY_REFERENCE then
    match json with
    | .obj fields =>
        match objGet fields "docs", objGet fields "items" with
        | .arr docs, .obj items =>
            (mapDocs docs).map (fun ds =>
              { data := .arr ds, total := some (objGet items "total") })
        | _, _ => none
    | _ => none
  else if type = CREATE then
    some { data := .obj (objDelete
             (objSet params.data "id" (objGet params.data "_id")) "_id"),
           total := none }
  else
    match json with
    | .obj fields =>
        some { data := .obj (objDelete
                 (objSet fields "id" (objGet fields "_id")) "_id"),
               total := none }
    | _ => none

/-- The transport collaborator `(url, options) => promise of {json}`:
deterministically, a request either rejects with an error value or
resolves with a parsed body. -/
def HttpClient : Type := Request → Except JValue JValue

/-- What invoking the provider observably does. -/
inductive Outcome where
  | thrown (msg : String)
  | rejected (e : JValue)
  | rejectedTypeError
  | resolved (r : ConvResult)
  deriving Repr

/-- `Promise.all` over already-created promises, deterministically:
the responses in submission order, or the error of the first rejected
entry. -/
def promiseAll : List (Except JValue JValue) → Except JValue (List JValue)
  | [] => .ok []
  | .error e :: _ => .error e
  | .ok j :: rest => (promiseAll rest).map (fun js => j :: js)

/-- The fan-out request for one id of UPDATE_MANY
(src/index.js:151-154): PATCH with `JSON.stringify(params.data)`,
uncleaned. -/
def updateManyRequest (apiUrl resource : String) (data : JObject)
    (id : JValue) : Request :=
  { path := apiUrl ++ "/" ++ resource ++ "/" ++ jsToString id,
    query := [], method := some "PATCH", body := some data }

/-- The fan-out request for one id of DELETE_MANY (src/index.js:164-166). -/
def deleteManyRequest (apiUrl resource : String) (id : JValue) : Request :=
  { path := apiUrl ++ "/" ++ resource ++ "/" ++ jsToString id,
    query := [], method := some "DELETE", body := none }

/-- The provider returned by the default export (src/index.js:146-180),
instrumented with the list of requests issued through `httpClient`.
`Promise.all(params.ids.map(...))` creates every request before
awaiting, so the fan-out issues one request per id even when some
reject. -/
def dataProvider (httpClient : HttpClient) (apiUrl : String)
    (type resource : String) (params : Params) : Outcome × List Request :=
  if type = UPDATE_MANY then
    match promiseAll ((params.ids.map
        (updateManyRequest apiUrl resource params.data)).map httpClient) with
    | .error e =>
        (.rejected e,
         params.ids.map (updateManyRequest apiUrl resource params.data))
    | .ok jsons =>
        (.resolved { data := .arr jsons, total := none },
         params.ids.map (updateManyRequest apiUrl resource params.data))
  else if type = DELETE_MANY then
    match promiseAll ((params.ids.map
        (deleteManyRequest apiUrl resource)).map httpClient) with
    | .error e =>
        (.rejected e, params.ids.map (deleteManyRequest apiUrl resource))
    | .ok jsons =>
        (.resolved { data := .arr jsons, total := none },
         params.ids.map (deleteManyRequest apiUrl resource))
  else
    match convertDataRequestToHTTP apiUrl type resource params with
    | .error msg => (.thrown msg, [])
    | .ok (req, params') =>
        match httpClient req with
        | .error e => (.rejected e, [req])
        | .ok json =>
            match convertHTTPResponse json type params' with
            | none => (.rejectedTypeError, [req])
            | some r => (.resolved r, [req])


/-! ## Library: JS object operations -/

theorem objGet_objSet_self (o : JObject) (k : String) (v : JValue) :
    objGet (objSet o k v) k = v := by
  induction o with
  | nil => simp [objSet, objGet]
  | cons p rest ih =>
      obtain ⟨k', v'⟩ := p
      by_cases h : k' = k <;> simp [objSet, objGet, h, ih]

theorem objGet_objSet_ne (o : JObject) (k m : String) (v : JValue)
    (h : m ≠ k) : objGet (objSet o k v) m = objGet o m := by
  have hk : k ≠ m := Ne.symm h
  induction o with
  | nil => simp [objSet, objGet, hk]
  | cons p rest ih =>
      obtain ⟨k', v'⟩ := p
      by_cases h1 : k' = k
      · subst h1; simp [objSet, objGet, hk]
      · simp [objSet, objGet, h1, ih]

theorem mem_objKeys_objSet (o : JObject) (k m : String) (v : JValue) :
    m ∈ objKeys (objSet o k v) ↔ m = k ∨ m ∈ objKeys o := by
  induction o with
  | nil => simp [objSet, objKeys]
  | cons p rest ih =>
      obtain ⟨k', v'⟩ := p
      by_cases h : k' = k
      · subst h
        rw [show objSet ((k', v') :: rest) k' v = (k', v) :: rest from by
          simp [objSet]]
        simp only [objKeys, List.map_cons, List.mem_cons]
        tauto
      · rw [show objSet ((k', v') :: rest) k v = (k', v') :: objSet rest k v
          from by simp [objSet, h]]
        simp only [objKeys, List.map_cons, List.mem_cons] at *
        rw [ih]
        tauto

theorem mem_objKeys_objDelete (o : JObject) (k m : String) :
    m ∈ objKeys (objDelete o k) ↔ m ∈ objKeys o ∧ m ≠ k := by
  induction o with
  | nil => simp [objDelete, objKeys]
  | cons p rest ih =>
      obtain ⟨k', v'⟩ := p
      by_cases h : k' = k
      · subst h
        rw [show objDelete ((k', v') :: rest) k' = objDelete rest k' from by
          simp [objDelete]]
        rw [ih]
        simp only [objKeys, List.map_cons, List.mem_cons]
        constructor
        · rintro ⟨hm, hne⟩; exact ⟨Or.inr hm, hne⟩
        · rintro ⟨hm | hm, hne⟩
          · exact absurd hm hne
          · exact ⟨hm, hne⟩
      · rw [show objDelete ((k', v') :: rest) k = (k', v') :: objDelete rest k
          from by simp [objDelete, h]]
        simp only [objKeys, List.map_cons, List.mem_cons] at ih ⊢
        rw [ih]
        constructor
        · rintro (rfl | ⟨hm, hne⟩)
          · exact ⟨Or.inl rfl, h⟩
          · exact ⟨Or.inr hm, hne⟩
        · rintro ⟨rfl | hm, hne⟩
          · exact Or.inl rfl
          · exact Or.inr ⟨hm, hne⟩

theorem objGet_objDelete_ne (o : JObject) (k m : String) (h : m ≠ k) :
    objGet (objDelete o k) m = objGet o m := by
  have hk : k ≠ m := Ne.symm h
  induction o with
  | nil => simp [objDelete]
  | cons p rest ih =>
      obtain ⟨k', v'⟩ := p
      by_cases h1 : k' = k
      · subst h1; simp [objDelete, objGet, hk, ih]
      · simp [objDelete, objGet, h1, ih]

theorem nodup_objKeys_objSet (o : JObject) (k : String) (v : JValue)
    (h : (objKeys o).Nodup) : (objKeys (objSet o k v)).Nodup := by
  induction o with
  | nil => simp [objSet, objKeys]
  | cons p rest ih =>
      obtain ⟨k', v'⟩ := p
      simp only [objKeys, List.map_cons, List.nodup_cons] at h
      by_cases h1 : k' = k
      · have he : objSet ((k', v') :: rest) k v = (k', v) :: rest := by
          simp [objSet, h1]
        rw [he]
        simp only [objKeys, List.map_cons, List.nodup_cons]
        exact h
      · have he : objSet ((k', v') :: rest) k v = (k', v') :: objSet rest k v := by
          simp [objSet, h1]
        rw [he]
        simp only [objKeys, List.map_cons, List.nodup_cons]
        refine ⟨fun hm => ?_, ih h.2⟩
        rcases (mem_objKeys_objSet rest k k' v).mp hm with h2 | h2
        · exact h1 h2
        · exact h.1 h2

theorem mem_objKeys_objAssign (s : JObject) (m : String) :
    ∀ (t : JObject), m ∈ objKeys (objAssign t s) ↔ m ∈ objKeys t ∨ m ∈ objKeys s := by
  induction s with
  | nil => intro t; simp [objAssign, objKeys]
  | cons p rest ih =>
      intro t
      obtain ⟨k, v⟩ := p
      show m ∈ objKeys (objAssign (objSet t k v) rest) ↔ _
      rw [ih, mem_objKeys_objSet]
      simp only [objKeys, List.map_cons, List.mem_cons]
      tauto

theorem nodup_objKeys_objAssign (s : JObject) :
    ∀ (t : JObject), (objKeys t).Nodup → (objKeys (objAssign t s)).Nodup := by
  induction s with
  | nil => intro t h; exact h
  | cons p rest ih =>
      intro t h
      exact ih (objSet t p.1 p.2) (nodup_objKeys_objSet t p.1 p.2 h)

theorem objGet_objAssign_not_mem (s : JObject) (m : String)
    (h : m ∉ objKeys s) :
    ∀ (t : JObject), objGet (objAssign t s) m = objGet t m := by
  induction s with
  | nil => intro t; rfl
  | cons p rest ih =>
      intro t
      obtain ⟨k, v⟩ := p
      simp only [objKeys, List.map_cons, List.mem_cons] at h
      push_neg at h
      show objGet (objAssign (objSet t k v) rest) m = _
      rw [ih h.2 (objSet t k v), objGet_objSet_ne t k m v h.1]

theorem objGet_objAssign_unique (s : JObject) (m : String) (v : JValue) :
    ∀ (t : JObject), (objKeys s).count m = 1 → (m, v) ∈ s →
    objGet (objAssign t s) m = v := by
  induction s with
  | nil => intro t _ hv; cases hv
  | cons p rest ih =>
      intro t hc hv
      obtain ⟨k, w⟩ := p
      show objGet (objAssign (objSet t k w) rest) m = v
      by_cases h : k = m
      · subst h
        rw [show objKeys ((k, w) :: rest) = k :: objKeys rest from rfl,
          List.count_cons_self] at hc
        have hrest : k ∉ objKeys rest := by
          intro hm
          have h2 : 0 < (objKeys rest).count k := List.count_pos_iff.mpr hm
          omega
        have hw : w = v := by
          rcases List.mem_cons.mp hv with h1 | h1
          · injection h1 with _ h1b; exact h1b.symm
          · exact absurd (List.mem_map_of_mem Prod.fst h1) hrest
        rw [objGet_objAssign_not_mem rest k hrest (objSet t k w),
          objGet_objSet_self, hw]
      · have hvr : (m, v) ∈ rest := by
          rcases List.mem_cons.mp hv with h1 | h1
          · injection h1 with h1a _; exact absurd h1a.symm h
          · exact h1
        have hcr : (objKeys rest).count m = 1 := by
          rw [show objKeys ((k, w) :: rest) = k :: objKeys rest from rfl,
            List.count_cons_of_ne (fun hh => h hh.symm)] at hc
          exact hc
        exact ih (objSet t k w) hcr hvr

/-! ## Library: flattening -/

/-- Keys that the adapter injects (`$sort`, `$term`, `id`, `q`, ...)
contain no dot, so they can never coincide with a dotted path produced
by flattening a nested filter. -/
def noDot (s : String) : Prop := '.' ∉ s.data

instance (s : String) : Decidable (noDot s) := by
  unfold noDot; infer_instance

theorem ne_append_dot (k s m : String) (h : noDot m) :
    k ++ "." ++ s ≠ m := by
  intro he
  apply h
  rw [← he, String.data_append, String.data_append]
  simp [show (".").data = ['.'] from rfl]

theorem mem_objKeys_flatEntry (k m : String) (v : JValue)
    (h : m ∈ objKeys (flatEntry k v)) : m = k ∨ ∃ s, m = k ++ "." ++ s := by
  cases v <;>
    first
      | (simp only [flatEntry, objKeys, List.map_map] at h
         rcases List.mem_map.mp h with ⟨p, hp, he⟩
         exact Or.inr ⟨p.1, he.symm⟩)
      | (simp [flatEntry, objKeys] at h
         exact Or.inl h)

/-- A dot-free key in a flat entry's keys is the entry's own key, and
the entry's value is then not a plain object (the key survives as a
leaf with its value). -/
theorem mem_flatEntry_noDot (k m : String) (v : JValue) (hm : noDot m)
    (h : m ∈ objKeys (flatEntry k v)) :
    m = k ∧ flatEntry k v = [(k, v)] := by
  cases v <;>
    first
      | (simp only [flatEntry, objKeys, List.map_map] at h
         rcases List.mem_map.mp h with ⟨p, hp, he⟩
         exact absurd he (ne_append_dot k p.1 m hm))
      | (simp [flatEntry, objKeys] at h
         exact ⟨h, by simp [flatEntry]⟩)

theorem mem_objKeys_flattenParts (o : JObject) (m : String)
    (h : m ∈ objKeys (flattenParts o)) :
    ∃ p ∈ o, m ∈ objKeys (flatEntry p.1 p.2) := by
  induction o with
  | nil => simp [flattenParts, objKeys] at h
  | cons p rest ih =>
      obtain ⟨k, v⟩ := p
      rw [show flattenParts ((k, v) :: rest) = flatEntry k v ++ flattenParts rest
        from by rw [flattenParts]] at h
      simp only [objKeys, List.map_append, List.mem_append] at h
      rcases h with h | h
      · exact ⟨(k, v), List.mem_cons_self _ _, h⟩
      · rcases ih h with ⟨q, hq, hm⟩
        exact ⟨q, List.mem_cons_of_mem _ hq, hm⟩

/-- A dot-free key of the flattened object is a top-level key of the
original object. -/
theorem mem_objKeys_flattenObject (o : JObject) (m : String) (hm : noDot m)
    (h : m ∈ objKeys (flattenObject o)) : m ∈ objKeys o := by
  rw [flattenObject] at h
  rcases (mem_objKeys_objAssign (flattenParts o) m []).mp h with h1 | h1
  · simp [objKeys] at h1
  · rcases mem_objKeys_flattenParts o m h1 with ⟨p, hp, hmem⟩
    have := (mem_flatEntry_noDot p.1 m p.2 hm hmem).1
    rw [this]
    exact List.mem_map_of_mem Prod.fst hp

theorem nodup_objKeys_flattenObject (o : JObject) :
    (objKeys (flattenObject o)).Nodup := by
  rw [flattenObject]
  exact nodup_objKeys_objAssign (flattenParts o) [] (by simp [objKeys])

/-- No dot-free key outside the original top-level keys appears in the
flattened object. -/
theorem not_mem_objKeys_flattenParts (o : JObject) (m : String)
    (hm : noDot m) (h : m ∉ objKeys o) : m ∉ objKeys (flattenParts o) := by
  intro hmem
  rcases mem_objKeys_flattenParts o m hmem with ⟨p, hp, hmem2⟩
  have := (mem_flatEntry_noDot p.1 m p.2 hm hmem2).1
  exact h (this ▸ List.mem_map_of_mem Prod.fst hp)

/-- A non-plain-object value flattens to a single leaf entry. -/
theorem flatEntry_eq_of_not_obj (k : String) (v : JValue)
    (h : ∀ fs, v ≠ .obj fs) : flatEntry k v = [(k, v)] := by
  cases v <;> first
    | exact absurd rfl (h _)
    | simp [flatEntry]

theorem flattenParts_count_mem (o : JObject) (m : String) (v : JValue)
    (hobj : flatEntry m v = [(m, v)]) (hm : noDot m)
    (hnd : (objKeys o).Nodup) (hmem : (m, v) ∈ o) :
    (objKeys (flattenParts o)).count m = 1 ∧ (m, v) ∈ flattenParts o := by
  induction o with
  | nil => cases hmem
  | cons p rest ih =>
      obtain ⟨k, w⟩ := p
      rw [show flattenParts ((k, w) :: rest) = flatEntry k w ++ flattenParts rest
        from by rw [flattenParts]]
      rw [show objKeys (flatEntry k w ++ flattenParts rest)
        = objKeys (flatEntry k w) ++ objKeys (flattenParts rest)
        from List.map_append _ _ _]
      rw [List.count_append]
      have hnd' : (objKeys rest).Nodup := (List.nodup_cons.mp hnd).2
      have hknot : k ∉ objKeys rest := (List.nodup_cons.mp hnd).1
      rcases List.mem_cons.mp hmem with he | hmm
      · have hk : m = k := congrArg Prod.fst he
        have hw : v = w := congrArg Prod.snd he
        subst hk; subst hw
        have h0 : m ∉ objKeys (flattenParts rest) :=
          not_mem_objKeys_flattenParts rest m hm hknot
        constructor
        · rw [List.count_eq_zero.mpr h0, hobj]
          simp [objKeys]
        · exact List.mem_append.mpr (Or.inl (hobj ▸ List.mem_singleton_self _))
      · have hne : k ≠ m := by
          intro hk
          exact hknot (hk ▸ List.mem_map_of_mem Prod.fst hmm)
        have hc0 : m ∉ objKeys (flatEntry k w) := by
          intro hmem2
          exact hne ((mem_flatEntry_noDot k m w hm hmem2).1.symm)
        rcases ih hnd' hmm with ⟨hcnt, hmemf⟩
        exact ⟨by rw [List.count_eq_zero.mpr hc0, hcnt],
          List.mem_append.mpr (Or.inr hmemf)⟩

/-- Looking a dot-free key up in the flattened object returns the
original top-level value, provided the top-level keys are unique (as
they always are for a JS object) and the value is not a nested object. -/
theorem objGet_flattenObject (o : JObject) (m : String) (v : JValue)
    (hnd : (objKeys o).Nodup) (hmem : (m, v) ∈ o)
    (hobj : flatEntry m v = [(m, v)]) (hm : noDot m) :
    objGet (flattenObject o) m = v := by
  rw [flattenObject]
  rcases flattenParts_count_mem o m v hobj hm hnd hmem with ⟨hc, hv⟩
  exact objGet_objAssign_unique (flattenParts o) m v [] hc hv

/-! ## Derived facts about the program's pieces -/

/-- Follows the spec's words (§4.3): "copy `_id` into `id` and remove
`_id`" on a record, used to compare the code's translations against the
spec's description. -/
def specIdRecord (fields : JObject) : JObject :=
  objDelete (objSet fields "id" (objGet fields "_id")) "_id"

/-- The spec-described record transform exposes the identifier under
`id` and leaves no `_id` key. -/
theorem specIdRecord_spec (fields : JObject) :
    objGet (specIdRecord fields) "id" = objGet fields "_id" ∧
    ¬ objHas (specIdRecord fields) "_id" := by
  unfold specIdRecord
  constructor
  · rw [objGet_objDelete_ne _ _ _ (by decide), objGet_objSet_self]
  · simp [objHas, mem_objKeys_objDelete]

/-- `cleanData` leaves none of the five housekeeping keys. -/
theorem cleanData_clean (data : JObject) :
    ¬ objHas (cleanData data) "id" ∧ ¬ objHas (cleanData data) "createdAt" ∧
    ¬ objHas (cleanData data) "updatedAt" ∧
    ¬ objHas (cleanData data) "deletedAt" ∧
    ¬ objHas (cleanData data) "isDeleted" := by
  simp [objHas, cleanData, mem_objKeys_objDelete]

theorem promiseAll_map_ok (l : List JValue) :
    promiseAll (l.map Except.ok) = .ok l := by
  induction l with
  | nil => rfl
  | cons j rest ih => simp [promiseAll, ih, Except.map]

theorem promiseAll_rejects (results : List (Except JValue JValue))
    (h : ∃ r ∈ results, ∃ e0, r = .error e0) :
    ∃ e, promiseAll results = .error e ∧ Except.error e ∈ results := by
  induction results with
  | nil => rcases h with ⟨r, hr, _⟩; cases hr
  | cons r rest ih =>
      cases r with
      | error e => exact ⟨e, rfl, List.mem_cons_self _ _⟩
      | ok j =>
          have h' : ∃ r ∈ rest, ∃ e0, r = .error e0 := by
            rcases h with ⟨r', hr', e0, he0⟩
            rcases List.mem_cons.mp hr' with rfl | hmem
            · cases he0
            · exact ⟨r', hmem, e0, he0⟩
          rcases ih h' with ⟨e, hpe, hmem⟩
          refine ⟨e, ?_, List.mem_cons_of_mem _ hmem⟩
          simp [promiseAll, hpe, Except.map]

/-- A concrete parameter bag used to instantiate universally quantified
theorems (sort on `title` descending, page 1, 24 per page). -/
def exampleParams : Params :=
  { page := 1, perPage := 24, sortField := "title", sortOrder := "DESC",
    filter := [], id := .str "1", ids := [], target := "author",
    data := [] }

/-! ## Claims -/

/-- C7: for every operation kind outside the nine recognized kinds, the
provider fails synchronously (a thrown error, distinct from a rejected
promise in the model) with a message naming the offending kind, and
issues no request through the HTTP transport. -/
theorem unsupported_type_throws (client : HttpClient)
    (apiUrl resource : String) (params : Params) (type : String)
    (h : type ∉ [GET_LIST, GET_ONE, GET_MANY, GET_MANY_REFERENCE, CREATE,
      UPDATE, UPDATE_MANY, DELETE, DELETE_MANY]) :
    dataProvider client apiUrl type resource params
      = (.thrown ("Unsupported fetch action type " ++ type), []) := by
  simp only [List.mem_cons, List.not_mem_nil, or_false] at h
  push_neg at h
  obtain ⟨h1, h2, h3, h4, h5, h6, h7, h8, h9⟩ := h
  simp [dataProvider, convertDataRequestToHTTP, h1, h2, h3, h4, h5, h6, h7,
    h8, h9]

theorem unsupported_type_throws_witness :
    "FOO" ∉ [GET_LIST, GET_ONE, GET_MANY, GET_MANY_REFERENCE, CREATE,
      UPDATE, UPDATE_MANY, DELETE, DELETE_MANY] ∧
    dataProvider (fun _ => .error .null) "base" "FOO" "posts" exampleParams
      = (.thrown ("Unsupported fetch action type " ++ "FOO"), []) :=
  ⟨by decide,
   unsupported_type_throws (fun _ => .error .null) "base" "posts"
     exampleParams "FOO" (by decide)⟩

/-- C10: update-many and delete-many with an empty id sequence resolve
with `{data: []}` and issue zero transport requests. -/
theorem empty_bulk_noop (client : HttpClient) (apiUrl resource : String)
    (params : Params) (h : params.ids = []) :
    dataProvider client apiUrl UPDATE_MANY resource params
      = (.resolved { data := .arr [], total := none }, []) ∧
    dataProvider client apiUrl DELETE_MANY resource params
      = (.resolved { data := .arr [], total := none }, []) := by
  constructor <;>
    simp [dataProvider, UPDATE_MANY, DELETE_MANY, h, promiseAll]

theorem empty_bulk_noop_witness :
    exampleParams.ids = [] ∧
    dataProvider (fun _ => .error .null) "base" UPDATE_MANY "posts"
        exampleParams
      = (.resolved { data := .arr [], total := none }, []) ∧
    dataProvider (fun _ => .error .null) "base" DELETE_MANY "posts"
        exampleParams
      = (.resolved { data := .arr [], total := none }, []) :=
  ⟨rfl,
   (empty_bulk_noop (fun _ => .error .null) "base" "posts" exampleParams
      rfl).1,
   (empty_bulk_noop (fun _ => .error .null) "base" "posts" exampleParams
      rfl).2⟩



theorem dataProvider_updateMany_eq (client : HttpClient)
    (apiUrl resource : String) (params : Params) :
    dataProvider client apiUrl UPDATE_MANY resource params
      = (match promiseAll ((params.ids.map
            (updateManyRequest apiUrl resource params.data)).map client) with
         | .error e => .rejected e
         | .ok js => .resolved { data := .arr js, total := none },
         params.ids.map (updateManyRequest apiUrl resource params.data)) := by
  simp [dataProvider]
  split <;> simp_all

theorem dataProvider_deleteMany_eq (client : HttpClient)
    (apiUrl resource : String) (params : Params) :
    dataProvider client apiUrl DELETE_MANY resource params
      = (match promiseAll ((params.ids.map
            (deleteManyRequest apiUrl resource)).map client) with
         | .error e => .rejected e
         | .ok js => .resolved { data := .arr js, total := none },
         params.ids.map (deleteManyRequest apiUrl resource)) := by
  simp [dataProvider, UPDATE_MANY, DELETE_MANY]
  split <;> simp_all

/-- C6: update-many and delete-many issue one request per id in
submission order; when every request succeeds the aggregate data
collects the raw response bodies in that same order; when any request
fails the aggregate rejects with the error of a failing request (never
resolving with a partial result). -/
theorem bulk_fanout_aggregation (client : HttpClient)
    (apiUrl resource : String) (params : Params) :
    ((dataProvider client apiUrl UPDATE_MANY resource params).2
        = params.ids.map (updateManyRequest apiUrl resource params.data) ∧
     (dataProvider client apiUrl DELETE_MANY resource params).2
        = params.ids.map (deleteManyRequest apiUrl resource)) ∧
    ((∀ jsons : List JValue,
        params.ids.map
            (fun i => client (updateManyRequest apiUrl resource params.data i))
          = jsons.map Except.ok →
        (dataProvider client apiUrl UPDATE_MANY resource params).1
          = .resolved { data := .arr jsons, total := none }) ∧
     (∀ jsons : List JValue,
        params.ids.map (fun i => client (deleteManyRequest apiUrl resource i))
          = jsons.map Except.ok →
        (dataProvider client apiUrl DELETE_MANY resource params).1
          = .resolved { data := .arr jsons, total := none })) ∧
    (((∃ i ∈ params.ids, ∃ e,
        client (updateManyRequest apiUrl resource params.data i) = .error e) →
      ∃ e, (dataProvider client apiUrl UPDATE_MANY resource params).1
          = .rejected e ∧
        ∃ i ∈ params.ids,
          client (updateManyRequest apiUrl resource params.data i) = .error e) ∧
     ((∃ i ∈ params.ids, ∃ e,
        client (deleteManyRequest apiUrl resource i) = .error e) →
      ∃ e, (dataProvider client apiUrl DELETE_MANY resource params).1
          = .rejected e ∧
        ∃ i ∈ params.ids,
          client (deleteManyRequest apiUrl resource i) = .error e)) := by
  rw [dataProvider_updateMany_eq, dataProvider_deleteMany_eq]
  rw [List.map_map, List.map_map]
  refine ⟨⟨rfl, rfl⟩, ⟨?_, ?_⟩, ?_, ?_⟩
  · intro jsons hj
    show (match promiseAll (params.ids.map
        (client ∘ updateManyRequest apiUrl resource params.data)) with
      | Except.error e => Outcome.rejected e
      | Except.ok js => Outcome.resolved { data := .arr js, total := none })
      = _
    rw [show params.ids.map
        (client ∘ updateManyRequest apiUrl resource params.data)
        = jsons.map Except.ok from hj, promiseAll_map_ok]
  · intro jsons hj
    show (match promiseAll (params.ids.map
        (client ∘ deleteManyRequest apiUrl resource)) with
      | Except.error e => Outcome.rejected e
      | Except.ok js => Outcome.resolved { data := .arr js, total := none })
      = _
    rw [show params.ids.map (client ∘ deleteManyRequest apiUrl resource)
        = jsons.map Except.ok from hj, promiseAll_map_ok]
  · rintro ⟨i, hi, e, he⟩
    have hmem : Except.error e ∈ params.ids.map
        (client ∘ updateManyRequest apiUrl resource params.data) :=
      he ▸ List.mem_map_of_mem _ hi
    rcases promiseAll_rejects _ ⟨_, hmem, e, rfl⟩ with ⟨e', hpe, hmem'⟩
    refine ⟨e', ?_, ?_⟩
    · show (match promiseAll (params.ids.map
          (client ∘ updateManyRequest apiUrl resource params.data)) with
        | Except.error e => Outcome.rejected e
        | Except.ok js => Outcome.resolved { data := .arr js, total := none })
        = _
      rw [hpe]
    · rcases List.mem_map.mp hmem' with ⟨i', hi', he'⟩
      exact ⟨i', hi', he'⟩
  · rintro ⟨i, hi, e, he⟩
    have hmem : Except.error e ∈ params.ids.map
        (client ∘ deleteManyRequest apiUrl resource) :=
      he ▸ List.mem_map_of_mem _ hi
    rcases promiseAll_rejects _ ⟨_, hmem, e, rfl⟩ with ⟨e', hpe, hmem'⟩
    refine ⟨e', ?_, ?_⟩
    · show (match promiseAll (params.ids.map
          (client ∘ deleteManyRequest apiUrl resource)) with
        | Except.error e => Outcome.rejected e
        | Except.ok js => Outcome.resolved { data := .arr js, total := none })
        = _
      rw [hpe]
    · rcases List.mem_map.mp hmem' with ⟨i', hi', he'⟩
      exact ⟨i', hi', he'⟩

/-- A transport that accepts PATCH requests and rejects the rest, used
to instantiate the fan-out theorem. -/
def patchOnlyClient : HttpClient := fun r =>
  if r.method = some "PATCH" then .ok (.obj [("ok", .bool true)])
  else .error (.str "boom")

/-- Concrete bulk parameters: two ids and a small payload. -/
def bulkParams : Params :=
  { page := 1, perPage := 24, sortField := "title", sortOrder := "DESC",
    filter := [], id := .str "1", ids := [.str "1", .str "2"],
    target := "author", data := [("name", .str "x")] }

theorem bulk_fanout_aggregation_witness :
    (dataProvider patchOnlyClient "base" UPDATE_MANY "posts" bulkParams).1
      = .resolved { data := .arr [.obj [("ok", .bool true)],
          .obj [("ok", .bool true)]], total := none } ∧
    (∃ e, (dataProvider patchOnlyClient "base" DELETE_MANY "posts"
        bulkParams).1 = .rejected e ∧
      ∃ i ∈ bulkParams.ids,
        patchOnlyClient (deleteManyRequest "base" "posts" i) = .error e) :=
  ⟨((bulk_fanout_aggregation patchOnlyClient "base" "posts" bulkParams).2.1).1
      [.obj [("ok", .bool true)], .obj [("ok", .bool true)]] rfl,
   ((bulk_fanout_aggregation patchOnlyClient "base" "posts"
      bulkParams).2.2).2
      ⟨.str "1", by simp [bulkParams, exampleParams], .str "boom", rfl⟩⟩

theorem objAssign_singleton (t : JObject) (k : String) (v : JValue) :
    objAssign t [(k, v)] = objSet t k v := rfl

/-- C3: with a non-empty sort field, the built query holds exactly one
`$sort` entry, whose value is the field name (with `id` replaced by
`_id`) prefixed by `-` exactly when the order is DESC. -/
theorem sort_translation (params : Params) (h : params.sortField ≠ "") :
    (objKeys (getQueryForParams params).1).count "$sort" = 1 ∧
    objGet (getQueryForParams params).1 "$sort"
      = .str ((if params.sortOrder = "DESC" then "-" else "")
          ++ (if params.sortField = "id" then "_id" else params.sortField)) := by
  simp only [getQueryForParams, if_pos h, objAssign_singleton]
  constructor
  · apply List.count_eq_one_of_mem
    · apply nodup_objKeys_objSet
      apply nodup_objKeys_objAssign
      apply nodup_objKeys_flattenObject
    · exact (mem_objKeys_objSet _ _ _ _).mpr (Or.inl rfl)
  · exact objGet_objSet_self _ _ _

theorem sort_translation_witness :
    exampleParams.sortField ≠ "" ∧
    objGet (getQueryForParams exampleParams).1 "$sort" = .str "-title" ∧
    (objKeys (getQueryForParams exampleParams).1).count "$sort" = 1 ∧
    objGet (getQueryForParams
        { exampleParams with sortField := "id", sortOrder := "ASC" }).1 "$sort"
      = .str "_id" :=
  ⟨by decide,
   (sort_translation exampleParams (by decide)).2,
   (sort_translation exampleParams (by decide)).1,
   (sort_translation { exampleParams with sortField := "id", sortOrder := "ASC" }
     (by decide)).2⟩

/-- C9: a create result's data is the caller's `params.data` with the
`_id` value copied to `id` and `_id` removed, and the translation never
reads the HTTP response body (equal for any two bodies). -/
theorem create_response_translation (json1 json2 : JValue) (params : Params) :
    convertHTTPResponse json1 CREATE params
      = some { data := .obj (specIdRecord params.data), total := none } ∧
    convertHTTPResponse json1 CREATE params
      = convertHTTPResponse json2 CREATE params := by
  constructor <;>
    simp [convertHTTPResponse, CREATE, GET_LIST, GET_MANY,
      GET_MANY_REFERENCE, specIdRecord]

theorem mapDocs_truthy (docs : List JObject)
    (h : ∀ d ∈ docs, truthy (objGet d "_id") = true) :
    mapDocs (docs.map JValue.obj)
      = some (docs.map (fun d => .obj (specIdRecord d))) := by
  induction docs with
  | nil => rfl
  | cons d rest ih =>
      have hd := h d (List.mem_cons_self _ _)
      have hr := ih (fun x hx => h x (List.mem_cons_of_mem _ hx))
      simp [mapDocs, mapListDoc, hd, hr, specIdRecord]

/-- C2 as amended: when every doc's `_id` is truthy, a list-like
response translates to the docs with `_id` copied to `id` and removed,
and total read from `items.total`.  (The claim's "whatever the `_id`
value" fails: a falsy `_id` short-circuits `&&` and the raw `_id` value
replaces the record, see the counterexample.) -/
theorem list_translation (params : Params) (tp : String) (fields : JObject)
    (docs : List JObject) (items : JObject)
    (htp : tp = GET_LIST ∨ tp = GET_MANY ∨ tp = GET_MANY_REFERENCE)
    (hdocs : objGet fields "docs" = .arr (docs.map .obj))
    (hitems : objGet fields "items" = .obj items)
    (htruthy : ∀ d ∈ docs, truthy (objGet d "_id") = true) :
    convertHTTPResponse (.obj fields) tp params
      = some { data := .arr (docs.map (fun d => .obj (specIdRecord d))),
               total := some (objGet items "total") } := by
  unfold convertHTTPResponse
  rw [if_pos htp]
  simp only [hdocs, hitems]
  rw [mapDocs_truthy docs htruthy]
  rfl

theorem list_translation_witness :
    (GET_LIST = GET_LIST ∨ GET_LIST = GET_MANY
      ∨ GET_LIST = GET_MANY_REFERENCE) ∧
    convertHTTPResponse
        (.obj [("docs", .arr [.obj [("_id", .str "1"), ("title", .str "A")]]),
               ("items", .obj [("total", .num 1)])]) GET_LIST exampleParams
      = some { data := .arr [.obj [("title", .str "A"), ("id", .str "1")]],
               total := some (.num 1) } :=
  ⟨Or.inl rfl,
   list_translation exampleParams GET_LIST
     [("docs", .arr [.obj [("_id", .str "1"), ("title", .str "A")]]),
      ("items", .obj [("total", .num 1)])]
     [[("_id", .str "1"), ("title", .str "A")]]
     [("total", .num 1)]
     (Or.inl rfl) rfl rfl (by decide)⟩

/-- C2 counterexample: a doc whose `_id` is falsy (the empty string) is
not translated to a record; the `&&` chain short-circuits and the array
element is the falsy `_id` value itself, unlike the claimed transform. -/
theorem list_translation_counterexample :
    convertHTTPResponse
        (.obj [("docs", .arr [.obj [("_id", .str ""), ("name", .str "x")]]),
               ("items", .obj [("total", .num 1)])]) GET_LIST exampleParams
      = some { data := .arr [.str ""], total := some (.num 1) } ∧
    JValue.arr [.str ""]
      ≠ .arr [.obj (specIdRecord [("_id", .str ""), ("name", .str "x")])] := by
  constructor
  · rfl
  · intro hcon
    rw [show specIdRecord [("_id", .str ""), ("name", .str "x")]
        = [("name", .str "x"), ("id", .str "")] from rfl] at hcon
    simp at hcon

theorem objSet_mem_self (o : JObject) (k : String) (v : JValue) :
    (k, v) ∈ objSet o k v := by
  induction o with
  | nil => simp [objSet]
  | cons p rest ih =>
      obtain ⟨k', v'⟩ := p
      by_cases h : k' = k
      · subst h; simp [objSet]
      · simp [objSet, h, ih]

theorem mem_objDelete_of_ne (o : JObject) (k m : String) (v : JValue)
    (hne : m ≠ k) (h : (m, v) ∈ o) : (m, v) ∈ objDelete o k := by
  induction o with
  | nil => cases h
  | cons p rest ih =>
      obtain ⟨k', v'⟩ := p
      by_cases hk : k' = k
      · subst hk
        rcases List.mem_cons.mp h with he | hm
        · exact absurd (congrArg Prod.fst he) hne
        · simpa [objDelete] using ih hm
      · rw [show objDelete ((k', v') :: rest) k = (k', v') :: objDelete rest k
          from by simp [objDelete, hk]]
        rcases List.mem_cons.mp h with he | hm
        · exact List.mem_cons.mpr (Or.inl he)
        · exact List.mem_cons.mpr (Or.inr (ih hm))

theorem nodup_objKeys_objDelete (o : JObject) (k : String)
    (h : (objKeys o).Nodup) : (objKeys (objDelete o k)).Nodup := by
  induction o with
  | nil => simp [objDelete, objKeys]
  | cons p rest ih =>
      obtain ⟨k', v'⟩ := p
      simp only [objKeys, List.map_cons, List.nodup_cons] at h
      by_cases hk : k' = k
      · subst hk; simpa [objDelete] using ih h.2
      · rw [show objDelete ((k', v') :: rest) k = (k', v') :: objDelete rest k
          from by simp [objDelete, hk]]
        simp only [objKeys, List.map_cons, List.nodup_cons]
        exact ⟨fun hm => h.1 ((mem_objKeys_objDelete rest k k').mp hm).1,
          ih h.2⟩

theorem qterm_query_core (f1 : JObject) (v : JValue) (pp pg : Int)
    (s : JObject) (hnd : (objKeys f1).Nodup)
    (hno : ∀ fs, v ≠ .obj fs)
    (hsq : "q" ∉ objKeys s) (hst : "$term" ∉ objKeys s) :
    objHas (objAssign (objAssign
        (flattenObject (objDelete (objSet f1 "$term" v) "q"))
        [("$limit", .num pp), ("$page", .num pg)]) s) "$term" ∧
    objGet (objAssign (objAssign
        (flattenObject (objDelete (objSet f1 "$term" v) "q"))
        [("$limit", .num pp), ("$page", .num pg)]) s) "$term" = v ∧
    ¬ objHas (objAssign (objAssign
        (flattenObject (objDelete (objSet f1 "$term" v) "q"))
        [("$limit", .num pp), ("$page", .num pg)]) s) "q" := by
  have hnd2 : (objKeys (objDelete (objSet f1 "$term" v) "q")).Nodup :=
    nodup_objKeys_objDelete _ _ (nodup_objKeys_objSet _ _ _ hnd)
  have hmem2 : ("$term", v) ∈ objDelete (objSet f1 "$term" v) "q" :=
    mem_objDelete_of_ne _ _ _ _ (by decide) (objSet_mem_self f1 "$term" v)
  have hleaf : flatEntry "$term" v = [("$term", v)] :=
    flatEntry_eq_of_not_obj _ v hno
  have hflat : objGet (flattenObject (objDelete (objSet f1 "$term" v) "q"))
      "$term" = v :=
    objGet_flattenObject _ _ _ hnd2 hmem2 hleaf (by decide)
  have hmemflat : "$term"
      ∈ objKeys (flattenObject (objDelete (objSet f1 "$term" v) "q")) := by
    rcases flattenParts_count_mem _ _ _ hleaf (by decide) hnd2 hmem2 with
      ⟨_, hmf⟩
    rw [flattenObject]
    exact (mem_objKeys_objAssign _ "$term" []).mpr
      (Or.inr (List.mem_map_of_mem Prod.fst hmf))
  refine ⟨?_, ?_, ?_⟩
  · unfold objHas
    refine (mem_objKeys_objAssign s "$term" _).mpr (Or.inl ?_)
    exact (mem_objKeys_objAssign _ "$term" _).mpr (Or.inl hmemflat)
  · rw [objGet_objAssign_not_mem s "$term" hst _,
      objGet_objAssign_not_mem _ "$term" (by simp [objKeys]) _, hflat]
  · unfold objHas
    intro hmem
    rcases (mem_objKeys_objAssign s "q" _).mp hmem with h1 | h1
    · rcases (mem_objKeys_objAssign _ "q" _).mp h1 with h2 | h2
      · have h3 := mem_objKeys_flattenObject _ "q" (by decide) h2
        exact ((mem_objKeys_objDelete _ _ _).mp h3).2 rfl
      · simp [objKeys] at h2
    · exact hsq h1

/-- C8 as amended: when the filter's `q` value is neither `null` nor
`undefined` (the code tests loose `!= null`) and is not a nested
mapping (flattening would dot-prefix its keys), the built query holds
`$term` with q's value and no `q` key.  The claim's "whatever its
value" fails for `null` (see the counterexample) and for nested
objects. -/
theorem qterm_rename (params : Params) (v : JValue)
    (hnd : (objKeys params.filter).Nodup)
    (hget : objGet params.filter "q" = v)
    (hnn : notNullish v = true)
    (hno : ∀ fs, v ≠ .obj fs) :
    objHas (getQueryForParams params).1 "$term" ∧
    objGet (getQueryForParams params).1 "$term" = v ∧
    ¬ objHas (getQueryForParams params).1 "q" := by
  simp only [getQueryForParams]
  by_cases hf : params.sortField = ""
  · rw [if_neg (not_not_intro hf), hget, hnn, if_pos rfl,
      if_neg (not_not_intro hf)]
    exact qterm_query_core params.filter v params.perPage params.page []
      hnd hno (by simp [objKeys]) (by simp [objKeys])
  · rw [if_pos hf]
    have hget1 : objGet (objSet params.filter "$sort"
        (.str ((if params.sortOrder = "DESC" then "-" else "")
          ++ params.sortField))) "q" = v := by
      rw [objGet_objSet_ne _ _ _ _ (by decide), hget]
    rw [hget1, hnn, if_pos rfl, if_pos hf]
    exact qterm_query_core _ v params.perPage params.page _
      (nodup_objKeys_objSet _ _ _ hnd) hno
      (by simp [objKeys]) (by simp [objKeys])

theorem qterm_rename_witness :
    (objKeys ([("q", JValue.str "x")] : JObject)).Nodup ∧
    objGet [("q", JValue.str "x")] "q" = .str "x" ∧
    notNullish (.str "x") = true ∧
    objHas (getQueryForParams
      { exampleParams with filter := [("q", .str "x")] }).1 "$term" ∧
    objGet (getQueryForParams
      { exampleParams with filter := [("q", .str "x")] }).1 "$term"
      = .str "x" ∧
    ¬ objHas (getQueryForParams
      { exampleParams with filter := [("q", .str "x")] }).1 "q" :=
  ⟨by decide, rfl, rfl,
   (qterm_rename { exampleParams with filter := [("q", .str "x")] }
      (.str "x") (by decide) rfl rfl (fun fs h => by cases h)).1,
   (qterm_rename { exampleParams with filter := [("q", .str "x")] }
      (.str "x") (by decide) rfl rfl (fun fs h => by cases h)).2.1,
   (qterm_rename { exampleParams with filter := [("q", .str "x")] }
      (.str "x") (by decide) rfl rfl (fun fs h => by cases h)).2.2⟩

/-- C8 counterexample: a filter with `q: null` contains the key `q`,
but the built query still carries `q` and gains no `$term`, because the
code's guard is the loose `q != null`. -/
theorem qterm_counterexample :
    objHas [("q", JValue.null)] "q" ∧
    objHas (getQueryForParams
      { exampleParams with sortField := "", filter := [("q", .null)] }).1
      "q" ∧
    ¬ objHas (getQueryForParams
      { exampleParams with sortField := "", filter := [("q", .null)] }).1
      "$term" :=
  ⟨by decide, by decide, by decide⟩

/-- C4 counterexample: building a list request mutates the caller's
params object: the filter comes back with the `$sort` entry that
line 32 wrote into it, different from the filter that went in. -/
theorem request_purity_counterexample :
    convertDataRequestToHTTP "base" GET_LIST "posts" exampleParams
      = .ok ({ path := "base/posts",
               query := [("$sort", .str "-title"), ("$limit", .num 24),
                 ("$page", .num 1)],
               method := none, body := none },
             { exampleParams with filter := [("$sort", .str "-title")] }) ∧
    ([("$sort", JValue.str "-title")] : JObject) ≠ exampleParams.filter := by
  constructor
  · rfl
  · intro h
    rw [show exampleParams.filter = [] from rfl] at h
    exact List.noConfusion h

/-- C4 as amended: request building never changes `params.data` and,
for every kind other than list and get-many-by-reference, returns the
params entirely unchanged; for those two kinds only `params.filter` is
replaced, by the query builder's mutated filter (`$sort` added
unsubstituted, `q` renamed to `$term`).  Determinism of the translation
holds by construction, the embedding being a function of its inputs. -/
theorem request_translation_frame (apiUrl resource : String)
    (params : Params) :
    (convertDataRequestToHTTP apiUrl GET_ONE resource params).map Prod.snd
      = .ok params ∧
    (convertDataRequestToHTTP apiUrl GET_MANY resource params).map Prod.snd
      = .ok params ∧
    (convertDataRequestToHTTP apiUrl CREATE resource params).map Prod.snd
      = .ok params ∧
    (convertDataRequestToHTTP apiUrl UPDATE resource params).map Prod.snd
      = .ok params ∧
    (convertDataRequestToHTTP apiUrl DELETE resource params).map Prod.snd
      = .ok params ∧
    (convertDataRequestToHTTP apiUrl GET_LIST resource params).map Prod.snd
      = .ok { params with filter := (getQueryForParams params).2 } ∧
    (convertDataRequestToHTTP apiUrl GET_MANY_REFERENCE resource
        params).map Prod.snd
      = .ok { params with filter := (getQueryForParams params).2 } ∧
    ({ params with filter := (getQueryForParams params).2 }).data
      = params.data := by
  refine ⟨?_, ?_, ?_, ?_, ?_, ?_, ?_, rfl⟩ <;>
    simp [convertDataRequestToHTTP, Except.map, GET_LIST, GET_ONE, GET_MANY,
      GET_MANY_REFERENCE, CREATE, UPDATE, DELETE]

/-- The `$sort` mutation of the filter introduces no `id` key. -/
theorem not_id_filter1 (f : JObject) (c : Prop) [Decidable c] (v : JValue)
    (hf : "id" ∉ objKeys f) :
    "id" ∉ objKeys (if c then objSet f "$sort" v else f) := by
  intro h
  split at h
  · rcases (mem_objKeys_objSet _ _ _ _).mp h with h6 | h6
    · exact absurd h6 (by decide)
    · exact hf h6
  · exact hf h

/-- The `q`-to-`$term` mutation of the filter introduces no `id` key. -/
theorem not_id_filter2 (f1 : JObject) (hf1 : "id" ∉ objKeys f1) :
    "id" ∉ objKeys (if notNullish (objGet f1 "q") = true then
        objDelete (objSet f1 "$term" (objGet f1 "q")) "q" else f1) := by
  intro h
  split at h
  · rcases (mem_objKeys_objDelete _ _ _).mp h with ⟨h4, _⟩
    rcases (mem_objKeys_objSet _ _ _ _).mp h4 with h5 | h5
    · exact absurd h5 (by decide)
    · exact hf1 h5
  · exact hf1 h

/-- If the caller's filter has no top-level `id` key, the built query
has none either: flattening only contributes top-level keys verbatim or
dotted paths, and the injected keys are `$sort`, `$term`, `$limit`,
`$page`. -/
theorem not_id_in_query (params : Params)
    (hfilter : ¬ objHas params.filter "id") :
    ¬ objHas (getQueryForParams params).1 "id" := by
  unfold objHas at *
  simp only [getQueryForParams]
  intro hmem
  rcases (mem_objKeys_objAssign _ "id" _).mp hmem with h1 | h1
  · rcases (mem_objKeys_objAssign _ "id" _).mp h1 with h2 | h2
    · have h3 := mem_objKeys_flattenObject _ "id" (by decide) h2
      exact not_id_filter2 _ (not_id_filter1 params.filter _ _ hfilter) h3
    · simp [objKeys] at h2
  · split at h1
    · simp [objKeys] at h1
    · simp [objKeys] at h1

/-- C5 as amended: provided the caller's filter carries no top-level
`id` key, the reference target is not the field `id`, and (because
update-many sends the data uncleaned) the data carries no `id` key,
no request issued by the provider carries a field named `id`, neither
among its query keys nor among its body keys. -/
theorem no_id_field (client : HttpClient) (apiUrl type resource : String)
    (params : Params) (req : Request)
    (hfilter : ¬ objHas params.filter "id")
    (htarget : params.target ≠ "id")
    (hdata : ¬ objHas params.data "id")
    (hreq : req ∈ (dataProvider client apiUrl type resource params).2) :
    ¬ objHas req.query "id" ∧ ∀ b, req.body = some b → ¬ objHas b "id" := by
  unfold dataProvider at hreq
  split at hreq
  · -- UPDATE_MANY fan-out
    have h2 : req ∈ params.ids.map
        (updateManyRequest apiUrl resource params.data) := by
      rcases hp : promiseAll ((params.ids.map
          (updateManyRequest apiUrl resource params.data)).map client)
        with e | js <;> rw [hp] at hreq <;> exact hreq
    rcases List.mem_map.mp h2 with ⟨i, _, rfl⟩
    refine ⟨by simp [updateManyRequest, objHas, objKeys], ?_⟩
    intro b hb
    rw [show (updateManyRequest apiUrl resource params.data i).body
        = some params.data from rfl] at hb
    injection hb with hb2
    rw [← hb2]
    exact hdata
  · split at hreq
    · -- DELETE_MANY fan-out
      have h2 : req ∈ params.ids.map (deleteManyRequest apiUrl resource) := by
        rcases hp : promiseAll ((params.ids.map
            (deleteManyRequest apiUrl resource)).map client)
          with e | js <;> rw [hp] at hreq <;> exact hreq
      rcases List.mem_map.mp h2 with ⟨i, _, rfl⟩
      exact ⟨by simp [deleteManyRequest, objHas, objKeys],
        fun b hb => Option.noConfusion hb⟩
    · -- single-request path
      split at hreq
      · simp at hreq
      · next req' params' heq =>
          have h3 : (match client req' with
              | .error e => (Outcome.rejected e, [req'])
              | .ok json =>
                  match convertHTTPResponse json type params' with
                  | none => (Outcome.rejectedTypeError, [req'])
                  | some r => (Outcome.resolved r, [req'])).2 = [req'] := by
            split
            · rfl
            · split <;> rfl
          rw [h3] at hreq
          have h2 : req = req' := List.mem_singleton.mp hreq
          subst h2
          unfold convertDataRequestToHTTP at heq
          split_ifs at heq with t1 t2 t3 t4 t5 t6 t7 <;> cases heq
          · exact ⟨not_id_in_query params hfilter,
              fun b hb => Option.noConfusion hb⟩
          · exact ⟨by simp [objHas, objKeys],
              fun b hb => Option.noConfusion hb⟩
          · refine ⟨?_, fun b hb => Option.noConfusion hb⟩
            intro hm
            rcases (mem_objKeys_objSet _ _ _ _).mp hm with h5 | h5
            · exact htarget h5.symm
            · exact not_id_in_query params hfilter h5
          · refine ⟨by simp [objHas, objKeys], ?_⟩
            intro b hb
            injection hb with hb2
            rw [← hb2]
            exact (cleanData_clean params.data).1
          · refine ⟨by simp [objHas, objKeys], ?_⟩
            intro b hb
            injection hb with hb2
            rw [← hb2]
            exact (cleanData_clean params.data).1
          · exact ⟨by simp [objHas, objKeys],
              fun b hb => Option.noConfusion hb⟩
          · refine ⟨?_, fun b hb => Option.noConfusion hb⟩
            intro hm
            unfold objHas objKeys at hm
            rw [List.map_map] at hm
            rcases List.mem_map.mp hm with ⟨i, _, he⟩
            have h9 : ("_id" : String) = "id" := he
            exact absurd h9 (by decide)

/-- C5 counterexample: a list request whose filter is `{id: 5}` sends
`id=5` in the query string — the filter is forwarded as-is, so the
claim fails for an arbitrary filter mapping. -/
theorem no_id_field_counterexample :
    (dataProvider (fun _ => .error .null) "base" GET_LIST "posts"
        { exampleParams with filter := [("id", .num 5)] }).2
      = [{ path := "base/posts",
           query := [("id", .num 5), ("$sort", .str "-title"),
             ("$limit", .num 24), ("$page", .num 1)],
           method := none, body := none }] ∧
    objHas [("id", JValue.num 5), ("$sort", JValue.str "-title"),
      ("$limit", JValue.num 24), ("$page", JValue.num 1)] "id" :=
  ⟨rfl, by decide⟩

theorem no_id_field_witness :
    ¬ objHas (Request.mk "base/posts/1" [] none none).query "id" ∧
    (∀ b, (Request.mk "base/posts/1" [] none none).body = some b →
      ¬ objHas b "id") :=
  no_id_field (fun _ => .ok (.obj [("_id", .str "9")])) "base" GET_ONE
    "posts" exampleParams (Request.mk "base/posts/1" [] none none)
    (by decide) (by decide) (by decide) (List.mem_singleton_self _)

/-- C1 counterexample: update-many violates both directions of the
boundary invariant — its request body is the uncleaned data (carrying
`id`), and its aggregate result passes the raw response bodies through
(records carrying `_id` and no `id`). -/
theorem boundary_id_counterexample :
    dataProvider (fun _ => .ok (.obj [("_id", .str "a")])) "base"
        UPDATE_MANY "posts"
        { exampleParams with ids := [.str "1"], data := [("id", .num 1)] }
      = (.resolved { data := .arr [.obj [("_id", .str "a")]], total := none },
         [{ path := "base/posts/1", query := [],
            method := some "PATCH", body := some [("id", .num 1)] }]) ∧
    objHas [("id", JValue.num 1)] "id" ∧
    objHas [("_id", JValue.str "a")] "_id" ∧
    ¬ objHas [("_id", JValue.str "a")] "id" :=
  ⟨rfl, by decide, by decide, by decide⟩

/-- C1 as amended: outside update-many and delete-many the invariant
holds — every body built by the request translator carries none of the
five housekeeping keys, and every translated response record (singular
kinds, create, and list records with truthy `_id`) is the `_id`-to-`id`
transform, which exposes the identifier under `id` and keeps no `_id`
key.  Update-many bodies are sent uncleaned and both bulk results
return raw server records, so the bulk operations stay excluded. -/
theorem boundary_id_invariant :
    (∀ apiUrl type resource params req params' b,
        convertDataRequestToHTTP apiUrl type resource params
          = .ok (req, params') →
        req.body = some b →
        ¬ objHas b "id" ∧ ¬ objHas b "createdAt" ∧ ¬ objHas b "updatedAt" ∧
          ¬ objHas b "deletedAt" ∧ ¬ objHas b "isDeleted") ∧
    (∀ tp fields params, tp = GET_ONE ∨ tp = UPDATE ∨ tp = DELETE →
        convertHTTPResponse (.obj fields) tp params
          = some { data := .obj (specIdRecord fields), total := none }) ∧
    (∀ json params, convertHTTPResponse json CREATE params
        = some { data := .obj (specIdRecord params.data), total := none }) ∧
    (∀ (tp : String) (params : Params) (fields : JObject)
        (docs : List JObject) (items : JObject),
        tp = GET_LIST ∨ tp = GET_MANY ∨ tp = GET_MANY_REFERENCE →
        objGet fields "docs" = .arr (docs.map .obj) →
        objGet fields "items" = .obj items →
        (∀ d ∈ docs, truthy (objGet d "_id") = true) →
        convertHTTPResponse (.obj fields) tp params
          = some { data := .arr (docs.map (fun d => .obj (specIdRecord d))),
                   total := some (objGet items "total") }) ∧
    (∀ fields, objGet (specIdRecord fields) "id" = objGet fields "_id" ∧
        ¬ objHas (specIdRecord fields) "_id") := by
  refine ⟨?_, ?_, ?_, ?_, specIdRecord_spec⟩
  · intro apiUrl type resource params req params' b heq hb
    unfold convertDataRequestToHTTP at heq
    split_ifs at heq with t1 t2 t3 t4 t5 t6 t7 <;> cases heq <;>
      first
        | exact Option.noConfusion hb
        | · injection hb with hb2
            rw [← hb2]
            exact cleanData_clean params.data
  · intro tp fields params htp
    rcases htp with rfl | rfl | rfl <;> rfl
  · intro json params
    rfl
  · intro tp params fields docs items htp hdocs hitems htruthy
    unfold convertHTTPResponse
    rw [if_pos htp]
    simp only [hdocs, hitems]
    rw [mapDocs_truthy docs htruthy]
    rfl

theorem boundary_id_invariant_witness :
    (¬ objHas [("name", JValue.str "x")] "id" ∧
     ¬ objHas [("name", JValue.str "x")] "createdAt" ∧
     ¬ objHas [("name", JValue.str "x")] "updatedAt" ∧
     ¬ objHas [("name", JValue.str "x")] "deletedAt" ∧
     ¬ objHas [("name", JValue.str "x")] "isDeleted") ∧
    convertHTTPResponse (.obj [("_id", .str "9")]) GET_ONE exampleParams
      = some { data := .obj (specIdRecord [("_id", .str "9")]),
               total := none } :=
  ⟨boundary_id_invariant.1 "base" UPDATE "posts"
      { exampleParams with data := [("id", .num 1), ("name", .str "x")] }
      (Request.mk "base/posts/1" [] (some "PUT") (some [("name", .str "x")]))
      { exampleParams with data := [("id", .num 1), ("name", .str "x")] }
      [("name", .str "x")] rfl rfl,
   boundary_id_invariant.2.1 GET_ONE [("_id", .str "9")] exampleParams
      (Or.inl rfl)⟩
